import Mathlib

/-!
Verification of the metabolate / npanalyst bioactivity scoring and
network-synthesis code (`src/npanalyst/activity.py`, `src/npanalyst/core.py`)
against its natural-language specification.

Conventions of the shallow embedding:
* Python floats are modelled as `ℚ` wherever the code only performs field
  arithmetic, and as `ℝ` where a square root occurs (the Pearson correlation).
* A float `NaN` produced by a zero-variance correlation is modelled as
  `Option.none`; `np.nansum` then reads `none` as a `0` contribution.
* A raised Python exception is modelled as `Except.error` / `Option.none`.
* Python `set`s of strings are modelled as duplicate-free `List String`
  (insertion order; every property proved is order-independent).
* `pandas.DataFrame` activity tables are modelled as association lists from
  sample name to a fingerprint vector `Fin m → ℚ` (row lookup = first match,
  matching `.loc` on a unique index).
-/

/-! ### Rounding (Python `round`: banker's rounding, half to even) -/

/-- Python `round(q)` on a rational value: nearest integer, ties to even. -/
def pyRound (q : ℚ) : ℤ :=
  let f : ℤ := ⌊q⌋
  let r : ℚ := q - f
  if r < 1/2 then f
  else if 1/2 < r then f + 1
  else if f % 2 = 0 then f else f + 1

/-- Python `round(q, 2)`. -/
def round2 (q : ℚ) : ℚ := (pyRound (100 * q) : ℚ) / 100

/-- Python `round(q, 4)`. -/
def round4 (q : ℚ) : ℚ := (pyRound (10000 * q) : ℚ) / 10000

open Classical in
/-- Python `round(x)` on a real value (used on the real-valued cluster score). -/
noncomputable def pyRoundR (x : ℝ) : ℤ :=
  let f : ℤ := ⌊x⌋
  let r : ℝ := x - f
  if r < 1/2 then f
  else if 1/2 < r then f + 1
  else if f % 2 = 0 then f else f + 1

/-- Python `round(x, 2)` on a real value. -/
noncomputable def round2R (x : ℝ) : ℝ := (pyRoundR (100 * x) : ℝ) / 100

theorem pyRoundR_ratCast (q : ℚ) : pyRoundR ((q : ℝ)) = pyRound q := by
  have hsub : (q : ℝ) - ((⌊q⌋ : ℤ) : ℝ) = (((q - (⌊q⌋ : ℤ)) : ℚ) : ℝ) := by
    push_cast
    ring
  have hhalf : (1 : ℝ)/2 = (((1 : ℚ)/2 : ℚ) : ℝ) := by norm_num
  unfold pyRoundR pyRound
  rw [Rat.floor_cast]
  simp only [hsub, hhalf, Rat.cast_lt]

theorem round2R_ratCast (q : ℚ) : round2R ((q : ℝ)) = ((round2 q : ℚ) : ℝ) := by
  unfold round2R round2
  rw [show ((100 : ℝ) * (q : ℝ)) = (((100 * q : ℚ)) : ℝ) by push_cast; ring,
    pyRoundR_ratCast]
  push_cast
  ring

/-! ### `filenames2samples` (activity.py lines 28-42) -/

/-- Python `s.split(sep)` for a single-character separator, on the character
list (structural recursion so concrete instances reduce). -/
def splitCharList (sep : Char) : List Char → List (List Char)
  | [] => [[]]
  | c :: cs =>
    let rest := splitCharList sep cs
    if c = sep then [] :: rest
    else (c :: rest.headI) :: rest.tail

/-- Python `s.split(sep)` for a single-character separator (both delimiters
used by the source, `"|"` and `"_"`, are single characters). -/
def pySplit (sep : Char) (s : String) : List String :=
  (splitCharList sep s.data).map (fun cs => String.mk cs)

/-- Does the filename match the regex search `_[0-9]$` (ends in an underscore
followed by a single decimal digit)? -/
def endsUnderscoreDigit (s : String) : Bool :=
  match s.data.reverse with
  | c :: c2 :: _ => c.isDigit && c2 = '_'
  | _ => false

/-- The sample derived from one delimited filename entry:
`filename.split("_")[0]` when the entry ends in `_<digit>`, else the entry. -/
def sampleOf (filename : String) : String :=
  if endsUnderscoreDigit filename then (pySplit '_' filename).headI else filename

/-- Model of `samples.add(x)` on a Python set modelled as a duplicate-free list. -/
def addSample (acc : List String) (s : String) : List String :=
  if s ∈ acc then acc else acc ++ [s]

/-- Source `filenames2samples`: split the joined filename string on `|`,
map each entry through the `_[0-9]$` rule, and collect into a set. -/
def filenames2samples (filenames : String) : List String :=
  (pySplit '|' filenames).foldl (fun acc fn => addSample acc (sampleOf fn)) []

theorem addSample_mem (acc : List String) (s x : String) :
    x ∈ addSample acc s ↔ x ∈ acc ∨ x = s := by
  unfold addSample
  split_ifs with h
  · constructor
    · exact Or.inl
    · rintro (hx | rfl)
      · exact hx
      · exact h
  · simp [List.mem_append]

theorem addSample_nodup (acc : List String) (s : String) (h : acc.Nodup) :
    (addSample acc s).Nodup := by
  unfold addSample
  split_ifs with hs
  · exact h
  · rw [List.nodup_append]
    refine ⟨h, List.nodup_singleton s, ?_⟩
    intro a ha hb
    rw [List.mem_singleton] at hb
    subst hb
    exact hs ha

theorem foldl_addSample_mem (l : List String) (acc : List String) (x : String) :
    x ∈ l.foldl (fun acc fn => addSample acc (sampleOf fn)) acc ↔
      x ∈ acc ∨ x ∈ l.map sampleOf := by
  induction l generalizing acc with
  | nil => simp
  | cons hd tl ih =>
    rw [List.foldl_cons, ih, addSample_mem]
    simp [or_assoc]

theorem foldl_addSample_nodup (l : List String) (acc : List String)
    (h : acc.Nodup) :
    (l.foldl (fun acc fn => addSample acc (sampleOf fn)) acc).Nodup := by
  induction l generalizing acc with
  | nil => exact h
  | cons hd tl ih => exact ih _ (addSample_nodup _ _ h)

/-! ### Activity tables and fingerprints (activity.py lines 45-126) -/

/-- An activity (bioactivity) table with `m` assay columns: association list
from sample name (the index column) to its fingerprint row vector. -/
def ActTable (m : ℕ) : Type := List (String × (Fin m → ℚ))

/-- Model of `fpd.loc[samp]`: row lookup on a unique index, first match. -/
def lookupRow {m : ℕ} (tbl : ActTable m) (samp : String) : Option (Fin m → ℚ) :=
  match tbl with
  | [] => none
  | (name, v) :: rest => if samp = name then some v else lookupRow rest samp

/-- Source `get_samples_fps`: collect the fingerprint row of each sample
found in the table, skipping (and logging) samples whose lookup raises
`KeyError`.  The subsequent emptiness test is done by the caller. -/
def get_samples_fps {m : ℕ} (tbl : ActTable m) (samples : List String) :
    List (Fin m → ℚ) :=
  samples.filterMap (lookupRow tbl)

/-- Model of `np.vstack(to_cat).mean(axis=0)`: element-wise arithmetic mean of a list
of row vectors. -/
def vecMean {m : ℕ} (fps : List (Fin m → ℚ)) : Fin m → ℚ :=
  fun i => ((fps.map (fun v => v i)).sum) / fps.length

/-- Source `feature_synthetic_fp`: the synthetic fingerprint of a basket;
`none` models the `KeyError("No Fingerprints found...")` raise when no
sample of the basket is present in the table. -/
def feature_synthetic_fp {m : ℕ} (tbl : ActTable m) (samples : List String) :
    Option (Fin m → ℚ) :=
  match get_samples_fps tbl samples with
  | [] => none
  | fps => some (vecMean fps)

/-- Mean of the entries of one fingerprint vector (over the assay columns). -/
def colMean {m : ℕ} (x : Fin m → ℚ) : ℚ := (∑ i, x i) / m

/-- Centered cross moment `∑ i (x i - mean x) * (y i - mean y)`; the Pearson
correlation of `x` and `y` is `Sxy x y / √(Sxy x x * Sxy y y)`. -/
def Sxy {m : ℕ} (x y : Fin m → ℚ) : ℚ :=
  ∑ i, (x i - colMean x) * (y i - colMean y)

/-- Pearson correlation of two fingerprint vectors as computed by
`pd.DataFrame(...).corr("pearson")`: `none` models the `NaN` entry produced
for a zero-variance (constant) fingerprint. -/
noncomputable def pearson {m : ℕ} (x y : Fin m → ℚ) : Option ℝ :=
  if Sxy x x = 0 ∨ Sxy y y = 0 then none
  else some ((Sxy x y : ℝ) / (Real.sqrt (Sxy x x : ℚ) * Real.sqrt (Sxy y y : ℚ)))

/-- Model of `np.nansum`: it reads a `NaN` correlation entry as a `0` contribution. -/
def nz (o : Option ℝ) : ℝ := o.getD 0

/-- Source `cluster_score`: `0.0` for a single found fingerprint, else the
`nansum` of the strictly-upper-triangular Pearson entries divided by
`(j**2 - j)/2`; `none` models the `KeyError` raise when no fingerprint is
found. -/
noncomputable def cluster_score {m : ℕ} (tbl : ActTable m)
    (samples : List String) : Option ℝ :=
  let fps := get_samples_fps tbl samples
  if fps.length = 0 then none
  else if fps.length = 1 then some 0
  else
    some ((∑ i : Fin fps.length, ∑ k : Fin fps.length,
        if i < k then nz (pearson (fps.get i) (fps.get k)) else 0) /
      (((fps.length : ℝ)^2 - (fps.length : ℝ)) / 2))

/-- The `Score` namedtuple: activity score (a sum of squares, rational in our
model) and cluster score (real, since Pearson involves a square root). -/
structure Score where
  activity : ℚ
  cluster : ℝ

/-- The single scoring error: Python `KeyError("No Fingerprints found...")`
raised by `get_samples_fps` when a basket has zero matchable samples. -/
inductive ScoreErr where
  | keyErrorNoFingerprints
deriving DecidableEq

/-- A basket as consumed by the scoring phase (`load_basket_data` output):
the sample set plus the MS columns carried into tables and networks. -/
structure BasketRec where
  samples : List String
  PrecMz : ℚ
  PrecIntensity : ℚ
  RetTime : ℚ

/-- Source `score_basket`: activity score `np.sum(sfp ** 2)` of the
synthetic fingerprint together with the cluster score; an empty fingerprint
list surfaces as the `KeyError`. -/
noncomputable def score_basket {m : ℕ} (tbl : ActTable m) (basket : BasketRec) :
    Except ScoreErr Score :=
  match feature_synthetic_fp tbl basket.samples, cluster_score tbl basket.samples with
  | some sfp, some c => .ok ⟨∑ i, (sfp i)^2, c⟩
  | _, _ => .error .keyErrorNoFingerprints

/-- Source `score_baskets`: `joblib.Parallel` over `score_basket`, one task
per basket, modelled sequentially; an exception in any task propagates out of
the `Parallel` call (fail-fast), aborting the whole scoring run. -/
noncomputable def score_baskets {m : ℕ} (baskets : List BasketRec)
    (tbl : ActTable m) : Except ScoreErr (List Score) :=
  match baskets with
  | [] => .ok []
  | b :: rest => do
    let s ← score_basket tbl b
    let ss ← score_baskets rest tbl
    pure (s :: ss)

/-! ### Tabular output (activity.py lines 129-173) -/

/-- Minimal model of Python's `json.dumps` on a string: quote it, escaping
backslash and double quote. -/
def jsonEscapeChar (c : Char) : String :=
  if c = '\\' then "\\\\" else if c = '"' then "\\\"" else String.singleton c

/-- JSON encoding of one string. -/
def jsonString (s : String) : String :=
  "\"" ++ String.join (s.data.map jsonEscapeChar) ++ "\""

/-- Model of `json.dumps(list_of_strings)` (default separator `", "`). -/
def jsonList (xs : List String) : String :=
  "[" ++ String.intercalate ", " (xs.map jsonString) ++ "]"

/-- Python `sorted` on strings: stable sort by the lexicographic order. -/
def sortStrings (xs : List String) : List String :=
  xs.mergeSort (fun a b => decide (a ≤ b))

/-- One row of the tabular output, fields in the source's tuple order. -/
structure OutRow where
  BasketID : ℕ
  Frequency : ℕ
  PrecMz : ℚ
  PrecIntensity : ℚ
  RetTime : ℚ
  SampleList : String
  ACTIVITY_SCORE : ℚ
  CLUSTER_SCORE : ℝ

/-- The `columns` tuple of `create_output_table` (source, lines 162-171). -/
def outputColumns : List String :=
  ["BasketID", "Frequency", "PrecMz", "PrecIntensity", "RetTime",
   "SampleList", "ACTIVITY_SCORE", "CLUSTER_SCORE"]

/-- Source `create_output_table`: one tuple per basket, indexing `scores[i]`
by the basket's position; `none` models the `IndexError` raised when the
scores list is shorter than the basket list (the `except KeyError` in the
source catches only `KeyError`, which list indexing never raises). -/
noncomputable def create_output_table (baskets : List BasketRec)
    (scores : List Score) : Option (List OutRow) :=
  if scores.length < baskets.length then none
  else
    some ((baskets.zip scores).enum.map (fun p =>
      { BasketID := p.1
        Frequency := p.2.1.samples.length
        PrecMz := p.2.1.PrecMz
        PrecIntensity := p.2.1.PrecIntensity
        RetTime := p.2.1.RetTime
        SampleList := jsonList (sortStrings p.2.1.samples)
        ACTIVITY_SCORE := p.2.2.activity
        CLUSTER_SCORE := p.2.2.cluster }))

/-! ### Association network (activity.py lines 195-276) -/

/-- Python `min(list)` (list nonempty at every call site). -/
def listMin (l : List ℚ) : ℚ :=
  match l with
  | [] => 0
  | x :: xs => xs.foldl min x

/-- Python `max(list)` (list nonempty at every call site). -/
def listMax (l : List ℚ) : ℚ :=
  match l with
  | [] => 0
  | x :: xs => xs.foldl max x

/-- The node-size computation of `create_association_network`:
`round(3 + (10-3)*(node_activity - min)/(max - min))` where `node_activity`
is the node's stored (2-decimal-rounded) activity score and min/max range
over the raw activity scores.  `none` models the non-finite float produced
by the division when all activity scores coincide (denominator `0.0`). -/
def basketRadius (activity_scores : List ℚ) (act : ℚ) : Option ℤ :=
  let mn := listMin activity_scores
  let mx := listMax activity_scores
  if mx - mn = 0 then none
  else some (pyRound (3 + (10 - 3) * (round2 act - mn) / (mx - mn)))

open Classical in
/-- The hard-coded colour chain of `create_association_network` (source,
lines 252-267), applied to the node's stored cluster score: first matching
band in descending threshold order.  The `(-0.5,-0.25]` band string is the
source's literal `"rbg(116,173,209)"` (sic). -/
noncomputable def colorFor (c : ℝ) : String :=
  if 0.75 < c then "rgb(165,0,38)"
  else if 0.5 < c then "rgb(215,48,39)"
  else if 0.25 < c then "rgb(244,109,67)"
  else if 0 < c then "rgb(253,174,97)"
  else if -0.25 < c then "rgb(171,217,233)"
  else if -0.5 < c then "rbg(116,173,209)"
  else if -0.75 < c then "rgb(69,117,180)"
  else "rgb(49,54,149)"

/-- The same colour chain over `ℚ` (computable companion of `colorFor`,
used to evaluate it on rational-valued scores). -/
def colorForQ (c : ℚ) : String :=
  if 0.75 < c then "rgb(165,0,38)"
  else if 0.5 < c then "rgb(215,48,39)"
  else if 0.25 < c then "rgb(244,109,67)"
  else if 0 < c then "rgb(253,174,97)"
  else if -0.25 < c then "rgb(171,217,233)"
  else if -0.5 < c then "rbg(116,173,209)"
  else if -0.75 < c then "rgb(69,117,180)"
  else "rgb(49,54,149)"

theorem colorFor_ratCast (q : ℚ) : colorFor ((q : ℝ)) = colorForQ q := by
  have hc : ∀ t : ℚ, ((t : ℝ) < (q : ℝ)) = (t < q) := by
    intro t
    exact propext Rat.cast_lt
  unfold colorFor colorForQ
  simp only [show ((0.75 : ℝ)) = ((0.75 : ℚ) : ℝ) by norm_num,
    show ((0.5 : ℝ)) = ((0.5 : ℚ) : ℝ) by norm_num,
    show ((0.25 : ℝ)) = ((0.25 : ℚ) : ℝ) by norm_num,
    show ((0 : ℝ)) = ((0 : ℚ) : ℝ) by norm_num,
    show ((-0.25 : ℝ)) = ((-0.25 : ℚ) : ℝ) by norm_num,
    show ((-0.5 : ℝ)) = ((-0.5 : ℚ) : ℝ) by norm_num,
    show ((-0.75 : ℝ)) = ((-0.75 : ℚ) : ℝ) by norm_num,
    ← Rat.cast_neg, Rat.cast_lt]

/-- A basket node of the association network with its stored attributes
(the `Basket` namedtuple plus the derived display attributes). -/
structure BNode where
  id : ℕ
  freq : ℕ
  samplesJoined : String
  PrecMz : ℚ
  RetTime : ℚ
  PrecIntensity : ℚ
  activity_score : ℚ
  cluster_score : ℝ
  radius : Option ℤ
  depth : ℕ
  color : String

/-- The bipartite association network: sample nodes (fixed radius `6`, depth
`0`, colour `"rgb(51,51,51)"`), basket nodes with derived attributes, and one
edge per (basket, member sample) pair. -/
structure Net where
  sampleNodes : List String
  basketNodes : List BNode
  edges : List (ℕ × String)

/-- Source `create_association_network`: collects the raw activity scores
of all baskets, then builds one node per basket with rounded carried values,
the rescaled radius and the banded colour.  `none` models the `IndexError`
raised when `scores` is shorter than `baskets` (the `except KeyError` in the
source cannot catch it). -/
noncomputable def create_association_network (baskets : List BasketRec)
    (scores : List Score) : Option Net :=
  if scores.length < baskets.length then none
  else
    let acts := (baskets.zip scores).map (fun p => p.2.activity)
    some
      { sampleNodes := (baskets.map (fun b => b.samples)).flatten.dedup
        basketNodes := (baskets.zip scores).enum.map (fun p =>
          { id := p.1
            freq := p.2.1.samples.length
            samplesJoined := String.intercalate ";" p.2.1.samples
            PrecMz := round4 p.2.1.PrecMz
            RetTime := round4 p.2.1.RetTime
            PrecIntensity := round4 p.2.1.PrecIntensity
            activity_score := round2 p.2.2.activity
            cluster_score := round2R p.2.2.cluster
            radius := basketRadius acts p.2.2.activity
            depth := 1
            color := colorFor (round2R p.2.2.cluster) })
        edges := (baskets.enum.map (fun p =>
          p.2.samples.map (fun s => (p.1, s)))).flatten }

/-! ### Replicate processing and basketing (core.py lines 67-155) -/

/-- The per-unit I/O failure of replicate processing (an unreadable input
file). -/
inductive IOErr where
  | unreadable
deriving DecidableEq

/-- Source `process_replicates`: `joblib.Parallel` over
`replicate_compare_sample`, modelled sequentially with fail-fast error
propagation.  `replicate_compare_sample` itself (mzML loading plus the
ConsolidationEngine, in `npanalyst/utils.py`, not under `src/`) is abstracted
as the per-sample task `proc`; its successful result is the written
`<sample>_replicated.csv` table.  The first task failure aborts the batch:
the returned pair is the outputs written by the units that completed before
the failure, together with the propagated error (if any). -/
def process_replicates {α : Type} (proc : String → Except IOErr α) :
    List String → List (String × α) × Option IOErr
  | [] => ([], none)
  | s :: rest =>
    match proc s with
    | .ok t =>
      let r := process_replicates proc rest
      ((s, t) :: r.1, r.2)
    | .error e => ([], some e)

/-- A row of the concatenated replicated tables, as a mapping from column
name to optional string value (`none` models a missing/NaN cell). -/
def RepRow : Type := String → Option String

/-- Model of `np.where(df[FILENAMECOL].isnull(), df["Sample"], df[FILENAMECOL])`:
repair the filename column from the `Sample` column where missing. -/
def fillFilename (FN : String) (r : RepRow) : RepRow :=
  fun c => if c = FN then (if (r FN).isNone then r "Sample" else r FN) else r c

/-- Source `basket_replicated`.  Modelled from the spec: the concatenated
per-sample table (`utils.make_repdf`) is taken as the input row list, and the
ConsolidationEngine (`utils.collapse_connected_components`, preceded by the
error columns / rtree construction) is taken as the `collapse` parameter,
since `npanalyst/utils.py` is not under `src/`; per the spec it returns one
row per retained component with the contributing file names joined by `"|"`
(unique names kept).  The steps in `src/` are literal: repair the filename
column from `Sample`, drop (and count, for the log) rows still missing it,
run the consolidation with `min_reps=1` (the configured `MINREPS` is unused),
and append a `freq` column counting the `"|"`-delimited file names. -/
def basket_replicated (FN : String) (MINREPS : ℕ)
    (collapse : List RepRow → ℕ → List RepRow) (rows : List RepRow) :
    List (RepRow × Option ℕ) × ℕ :=
  let filled := rows.map (fillFilename FN)
  let kept := filled.filter (fun r => (r FN).isSome)
  let dropped := filled.length - kept.length
  let ndf := collapse kept 1
  let out := ndf.map (fun r => (r, (r FN).map (fun s => (pySplit '|' s).length)))
  (out, dropped)

/-! ### Facts about the Pearson correlation entries -/

theorem Sxy_symm {m : ℕ} (x y : Fin m → ℚ) : Sxy x y = Sxy y x :=
  Finset.sum_congr rfl (fun i _ => mul_comm _ _)

theorem Sxx_nonneg {m : ℕ} (x : Fin m → ℚ) : 0 ≤ Sxy x x :=
  Finset.sum_nonneg (fun i _ => mul_self_nonneg _)

theorem Sxy_sq_le {m : ℕ} (x y : Fin m → ℚ) :
    (Sxy x y)^2 ≤ Sxy x x * Sxy y y := by
  have h1 : Sxy x x = ∑ i, (x i - colMean x)^2 :=
    Finset.sum_congr rfl (fun i _ => by ring)
  have h2 : Sxy y y = ∑ i, (y i - colMean y)^2 :=
    Finset.sum_congr rfl (fun i _ => by ring)
  rw [h1, h2]
  exact Finset.sum_mul_sq_le_sq_mul_sq Finset.univ _ _

theorem pearson_symm {m : ℕ} (x y : Fin m → ℚ) : pearson x y = pearson y x := by
  unfold pearson
  by_cases h : Sxy x x = 0 ∨ Sxy y y = 0
  · rw [if_pos h, if_pos (Or.symm h)]
  · rw [if_neg h, if_neg (fun hc => h (Or.symm hc)), Sxy_symm x y,
      mul_comm (Real.sqrt ((Sxy x x : ℚ) : ℝ)) (Real.sqrt ((Sxy y y : ℚ) : ℝ))]

theorem pearson_bounds {m : ℕ} (x y : Fin m → ℚ) (r : ℝ)
    (h : pearson x y = some r) : -1 ≤ r ∧ r ≤ 1 := by
  unfold pearson at h
  by_cases hcond : Sxy x x = 0 ∨ Sxy y y = 0
  · rw [if_pos hcond] at h
    exact absurd h (by simp)
  · rw [if_neg hcond] at h
    push_neg at hcond
    obtain ⟨hx, hy⟩ := hcond
    have hr : r = (Sxy x y : ℝ) /
        (Real.sqrt ((Sxy x x : ℚ) : ℝ) * Real.sqrt ((Sxy y y : ℚ) : ℝ)) :=
      (Option.some.inj h).symm
    have hbx : (0 : ℚ) < Sxy x x := lt_of_le_of_ne (Sxx_nonneg x) (Ne.symm hx)
    have hby : (0 : ℚ) < Sxy y y := lt_of_le_of_ne (Sxx_nonneg y) (Ne.symm hy)
    have hb : (0 : ℝ) < ((Sxy x x : ℚ) : ℝ) := by exact_mod_cast hbx
    have hc : (0 : ℝ) < ((Sxy y y : ℚ) : ℝ) := by exact_mod_cast hby
    have hsq : ((Sxy x y : ℚ) : ℝ)^2 ≤ ((Sxy x x : ℚ) : ℝ) * ((Sxy y y : ℚ) : ℝ) := by
      exact_mod_cast Sxy_sq_le x y
    have habs : |((Sxy x y : ℚ) : ℝ)| ≤
        Real.sqrt ((Sxy x x : ℚ) : ℝ) * Real.sqrt ((Sxy y y : ℚ) : ℝ) := by
      rw [← Real.sqrt_sq_eq_abs, ← Real.sqrt_mul hb.le]
      exact Real.sqrt_le_sqrt hsq
    have hd : (0 : ℝ) < Real.sqrt ((Sxy x x : ℚ) : ℝ) * Real.sqrt ((Sxy y y : ℚ) : ℝ) :=
      mul_pos (Real.sqrt_pos.2 hb) (Real.sqrt_pos.2 hc)
    have hler : |r| ≤ 1 := by
      rw [hr, abs_div, abs_of_pos hd, div_le_one hd]
      exact habs
    exact abs_le.1 hler

theorem nz_bounds {m : ℕ} (x y : Fin m → ℚ) :
    -1 ≤ nz (pearson x y) ∧ nz (pearson x y) ≤ 1 := by
  cases hp : pearson x y with
  | none => simp [nz]
  | some r =>
    have := pearson_bounds x y r hp
    simpa [nz] using this

theorem nz_pearson_symm {m : ℕ} (x y : Fin m → ℚ) :
    nz (pearson x y) = nz (pearson y x) := by
  rw [pearson_symm]

/-- The number of strictly-upper-triangular entries of a `j × j` matrix,
as a real-valued indicator sum: `(j² - j)/2`. -/
theorem ltPairCount (j : ℕ) :
    (∑ i : Fin j, ∑ k : Fin j, if i < k then (1 : ℝ) else 0) =
      ((j : ℝ)^2 - (j : ℝ)) / 2 := by
  have key : ∀ i k : Fin j,
      ((if i < k then (1 : ℝ) else 0) +
        ((if k < i then (1 : ℝ) else 0) + (if i = k then (1 : ℝ) else 0))) = 1 := by
    intro i k
    rcases lt_trichotomy i k with h | h | h
    · simp [h, asymm h, ne_of_lt h]
    · subst h
      simp
    · simp [h, asymm h, ne_of_gt h]
  have total : (∑ i : Fin j, ∑ k : Fin j,
      ((if i < k then (1 : ℝ) else 0) +
        ((if k < i then (1 : ℝ) else 0) + (if i = k then (1 : ℝ) else 0)))) =
      (j : ℝ) * (j : ℝ) := by
    rw [Finset.sum_congr rfl (fun i _ => Finset.sum_congr rfl (fun k _ => key i k))]
    simp [Finset.sum_const, Finset.card_univ, mul_comm]
  have hB : (∑ i : Fin j, ∑ k : Fin j, if k < i then (1 : ℝ) else 0) =
      (∑ i : Fin j, ∑ k : Fin j, if i < k then (1 : ℝ) else 0) :=
    Finset.sum_comm
  have hD : (∑ i : Fin j, ∑ k : Fin j, if i = k then (1 : ℝ) else 0) = (j : ℝ) := by
    have hinner : ∀ i : Fin j, (∑ k : Fin j, if i = k then (1 : ℝ) else 0) = 1 := by
      intro i
      rw [Finset.sum_ite_eq Finset.univ i (fun _ => (1 : ℝ))]
      simp
    rw [Finset.sum_congr rfl (fun i _ => hinner i)]
    simp [Finset.sum_const, Finset.card_univ]
  simp only [Finset.sum_add_distrib] at total
  rw [hB, hD] at total
  linarith

/-- Spec-side definition for the cluster score: the mean of the off-diagonal
entries of the pairwise Pearson correlation matrix of the found samples'
fingerprints, a `NaN` entry contributing `0` to the sum while still counting
in the divisor. -/
noncomputable def offDiagMean {m : ℕ} (tbl : ActTable m)
    (samples : List String) : ℝ :=
  let fps := get_samples_fps tbl samples
  (∑ i : Fin fps.length, ∑ k : Fin fps.length,
      if i ≠ k then nz (pearson (fps.get i) (fps.get k)) else 0) /
    ((fps.length : ℝ)^2 - (fps.length : ℝ))

/-- Off-diagonal sum of a symmetric matrix = twice its strict upper sum. -/
theorem offdiag_split (j : ℕ) (t : Fin j → Fin j → ℝ)
    (hsymm : ∀ i k, t i k = t k i) :
    (∑ i : Fin j, ∑ k : Fin j, if i ≠ k then t i k else 0) =
      2 * (∑ i : Fin j, ∑ k : Fin j, if i < k then t i k else 0) := by
  have key : ∀ i k : Fin j, (if i ≠ k then t i k else 0) =
      (if i < k then t i k else 0) + (if k < i then t i k else 0) := by
    intro i k
    rcases lt_trichotomy i k with h | h | h
    · simp [h, asymm h, ne_of_lt h]
    · subst h
      simp
    · simp [h, asymm h, ne_of_gt h]
  rw [Finset.sum_congr rfl (fun i _ => Finset.sum_congr rfl (fun k _ => key i k))]
  simp only [Finset.sum_add_distrib]
  have hB : (∑ i : Fin j, ∑ k : Fin j, if k < i then t i k else 0) =
      (∑ i : Fin j, ∑ k : Fin j, if i < k then t i k else 0) := by
    rw [Finset.sum_comm]
    exact Finset.sum_congr rfl (fun a _ =>
      Finset.sum_congr rfl (fun b _ => by rw [hsymm b a]))
  rw [hB]
  ring

/-- If the cluster score is defined and at least two fingerprints were found,
it is the strict-upper-triangle `nansum` over `(j² - j)/2`, and this equals
the off-diagonal mean. -/
theorem cluster_score_eq_offDiagMean {m : ℕ} (tbl : ActTable m)
    (samples : List String)
    (h2 : 2 ≤ (get_samples_fps tbl samples).length) :
    cluster_score tbl samples = some (offDiagMean tbl samples) := by
  have h0 : ¬ (get_samples_fps tbl samples).length = 0 := by omega
  have h1 : ¬ (get_samples_fps tbl samples).length = 1 := by omega
  simp only [cluster_score, offDiagMean]
  rw [if_neg h0, if_neg h1]
  congr 1
  have hj : (((get_samples_fps tbl samples).length : ℝ)^2 -
      ((get_samples_fps tbl samples).length : ℝ)) ≠ 0 := by
    have h2r : (2 : ℝ) ≤ ((get_samples_fps tbl samples).length : ℝ) := by
      exact_mod_cast h2
    nlinarith
  rw [offdiag_split (get_samples_fps tbl samples).length
    (fun i k => nz (pearson ((get_samples_fps tbl samples).get i)
      ((get_samples_fps tbl samples).get k)))
    (fun i k => nz_pearson_symm _ _)]
  field_simp
  ring

/-- Any defined cluster score lies in `[-1, 1]`. -/
theorem cluster_score_mem (m : ℕ) (tbl : ActTable m) (samples : List String)
    (c : ℝ) (h : cluster_score tbl samples = some c) : -1 ≤ c ∧ c ≤ 1 := by
  simp only [cluster_score] at h
  by_cases h0 : (get_samples_fps tbl samples).length = 0
  · rw [if_pos h0] at h
    exact absurd h (by simp)
  · rw [if_neg h0] at h
    by_cases h1 : (get_samples_fps tbl samples).length = 1
    · rw [if_pos h1] at h
      obtain rfl : (0 : ℝ) = c := Option.some.inj h
      norm_num
    · rw [if_neg h1] at h
      have hc := Option.some.inj h
      have hj2 : 2 ≤ (get_samples_fps tbl samples).length := by omega
      have hj2r : (2 : ℝ) ≤ ((get_samples_fps tbl samples).length : ℝ) := by
        exact_mod_cast hj2
      have hub : (∑ i : Fin (get_samples_fps tbl samples).length,
          ∑ k : Fin (get_samples_fps tbl samples).length,
            if i < k then nz (pearson ((get_samples_fps tbl samples).get i)
              ((get_samples_fps tbl samples).get k)) else 0) ≤
          (∑ i : Fin (get_samples_fps tbl samples).length,
            ∑ k : Fin (get_samples_fps tbl samples).length,
              if i < k then (1 : ℝ) else 0) :=
        Finset.sum_le_sum (fun i _ => Finset.sum_le_sum (fun k _ => by
          split_ifs with hik
          · exact (nz_bounds _ _).2
          · exact le_refl 0))
      have hlb : (∑ i : Fin (get_samples_fps tbl samples).length,
          ∑ k : Fin (get_samples_fps tbl samples).length,
            if i < k then (-1 : ℝ) else 0) ≤
          (∑ i : Fin (get_samples_fps tbl samples).length,
            ∑ k : Fin (get_samples_fps tbl samples).length,
              if i < k then nz (pearson ((get_samples_fps tbl samples).get i)
                ((get_samples_fps tbl samples).get k)) else 0) :=
        Finset.sum_le_sum (fun i _ => Finset.sum_le_sum (fun k _ => by
          split_ifs with hik
          · exact (nz_bounds _ _).1
          · exact le_refl 0))
      have hneg : (∑ i : Fin (get_samples_fps tbl samples).length,
          ∑ k : Fin (get_samples_fps tbl samples).length,
            if i < k then (-1 : ℝ) else 0) =
          -(∑ i : Fin (get_samples_fps tbl samples).length,
            ∑ k : Fin (get_samples_fps tbl samples).length,
              if i < k then (1 : ℝ) else 0) := by
        rw [Finset.sum_congr rfl (fun i _ => Finset.sum_congr rfl (fun k _ => by
          rw [show (if i < k then (-1 : ℝ) else 0) =
            -(if i < k then (1 : ℝ) else 0) from by split_ifs <;> norm_num]))]
        simp
      have hcount := ltPairCount (get_samples_fps tbl samples).length
      have hNpos : (0 : ℝ) <
          (((get_samples_fps tbl samples).length : ℝ)^2 -
            ((get_samples_fps tbl samples).length : ℝ)) / 2 := by
        nlinarith
      subst hc
      constructor
      · rw [le_div_iff hNpos]
        rw [hcount] at hneg
        linarith
      · rw [div_le_one hNpos]
        rw [hcount] at hub
        linarith

/-- When exactly one fingerprint is found, the cluster score is exactly `0`. -/
theorem cluster_score_single (m : ℕ) (tbl : ActTable m) (samples : List String)
    (h1 : (get_samples_fps tbl samples).length = 1) :
    cluster_score tbl samples = some 0 := by
  simp only [cluster_score]
  rw [if_neg (by omega), if_pos h1]

/-- A basket scores successfully iff at least one of its samples is found;
the ok value carries the defined cluster score. -/
theorem score_basket_ok (m : ℕ) (tbl : ActTable m) (basket : BasketRec)
    (sc : Score) (h : score_basket tbl basket = .ok sc) :
    cluster_score tbl basket.samples = some sc.cluster := by
  unfold score_basket at h
  cases hf : feature_synthetic_fp tbl basket.samples with
  | none =>
    rw [hf] at h
    exact absurd h (by simp)
  | some sfp =>
    rw [hf] at h
    cases hcs : cluster_score tbl basket.samples with
    | none =>
      rw [hcs] at h
      exact absurd h (by simp)
    | some c =>
      rw [hcs] at h
      simp only [Except.ok.injEq] at h
      rw [← h]

/-- C2: for every basket with at least two contributing samples found in the
activity table, the cluster score equals the mean of the off-diagonal entries
of the pairwise Pearson correlation matrix of those samples' fingerprint
vectors, a `NaN` entry contributing `0` to the sum while still counting in
the divisor; for exactly one found sample the cluster score is exactly `0.0`
with no division performed. -/
theorem claim_C2_cluster_offdiag_mean {m : ℕ} (tbl : ActTable m)
    (samples : List String) :
    (2 ≤ (get_samples_fps tbl samples).length →
      cluster_score tbl samples = some (offDiagMean tbl samples)) ∧
    ((get_samples_fps tbl samples).length = 1 →
      cluster_score tbl samples = some 0) :=
  ⟨cluster_score_eq_offDiagMean tbl samples, cluster_score_single m tbl samples⟩

/-- Witness for C2: a two-sample table where both samples are found, and a
single-row table where exactly one of the basket's samples is found. -/
theorem claim_C2_witness :
    (2 ≤ (get_samples_fps [("A", fun _ : Fin 1 => (1 : ℚ)), ("B", fun _ => (0 : ℚ))]
        ["A", "B"]).length ∧
      cluster_score [("A", fun _ : Fin 1 => (1 : ℚ)), ("B", fun _ => (0 : ℚ))]
        ["A", "B"] =
        some (offDiagMean [("A", fun _ : Fin 1 => (1 : ℚ)), ("B", fun _ => (0 : ℚ))]
          ["A", "B"])) ∧
    ((get_samples_fps [("A", fun _ : Fin 1 => (1 : ℚ))] ["A", "Z"]).length = 1 ∧
      cluster_score [("A", fun _ : Fin 1 => (1 : ℚ))] ["A", "Z"] = some 0) :=
  ⟨⟨by decide, (claim_C2_cluster_offdiag_mean _ _).1 (by decide)⟩,
   ⟨by decide, (claim_C2_cluster_offdiag_mean _ _).2 (by decide)⟩⟩

/-- C3: every basket that is scored has its cluster score in `[-1, 1]`, and
the score is exactly `0.0` when exactly one of its samples contributes a
fingerprint. -/
theorem claim_C3_cluster_bounds {m : ℕ} (tbl : ActTable m)
    (basket : BasketRec) (sc : Score) (h : score_basket tbl basket = .ok sc) :
    (-1 ≤ sc.cluster ∧ sc.cluster ≤ 1) ∧
    ((get_samples_fps tbl basket.samples).length = 1 → sc.cluster = 0) := by
  have hcs := score_basket_ok m tbl basket sc h
  refine ⟨cluster_score_mem m tbl basket.samples sc.cluster hcs, fun h1 => ?_⟩
  have hz := cluster_score_single m tbl basket.samples h1
  exact Option.some.inj (hcs.symm.trans hz)

/-- Witness for C3: a basket with exactly one contributing sample scores
`.ok` with cluster score `0`, inside `[-1, 1]`. -/
theorem claim_C3_witness :
    score_basket [("A", fun _ : Fin 1 => (1 : ℚ))] ⟨["A"], 0, 0, 0⟩ =
      .ok ⟨1, 0⟩ ∧
    ((-1 ≤ (Score.mk 1 0).cluster ∧ (Score.mk 1 0).cluster ≤ 1) ∧
      ((get_samples_fps [("A", fun _ : Fin 1 => (1 : ℚ))]
        (BasketRec.mk ["A"] 0 0 0).samples).length = 1 →
        (Score.mk 1 0).cluster = 0)) := by
  have h : score_basket [("A", fun _ : Fin 1 => (1 : ℚ))] ⟨["A"], 0, 0, 0⟩ =
      .ok ⟨1, 0⟩ := by
    have hf : get_samples_fps [("A", fun _ : Fin 1 => (1 : ℚ))] ["A"] =
        [fun _ => (1 : ℚ)] := rfl
    simp only [score_basket, feature_synthetic_fp, cluster_score, hf]
    norm_num [vecMean, Fin.sum_univ_one]
  exact ⟨h, claim_C3_cluster_bounds _ _ _ h⟩

/-- With at least one found fingerprint the cluster score is defined. -/
theorem cluster_score_some_of_ne (m : ℕ) (tbl : ActTable m)
    (samples : List String) (hne : get_samples_fps tbl samples ≠ []) :
    ∃ c, cluster_score tbl samples = some c := by
  simp only [cluster_score]
  have h0 : ¬ (get_samples_fps tbl samples).length = 0 := by
    simpa [List.length_eq_zero] using hne
  rw [if_neg h0]
  by_cases h1 : (get_samples_fps tbl samples).length = 1
  · rw [if_pos h1]
    exact ⟨0, rfl⟩
  · rw [if_neg h1]
    exact ⟨_, rfl⟩

/-- A basket with at least one found sample scores successfully. -/
theorem score_basket_ok_of_found (m : ℕ) (tbl : ActTable m)
    (basket : BasketRec) (hne : get_samples_fps tbl basket.samples ≠ []) :
    ∃ sc, score_basket tbl basket = .ok sc := by
  cases hf : get_samples_fps tbl basket.samples with
  | nil => exact absurd hf hne
  | cons a l =>
    have hfs : feature_synthetic_fp tbl basket.samples = some (vecMean (a :: l)) := by
      unfold feature_synthetic_fp
      rw [hf]
    obtain ⟨c, hc⟩ := cluster_score_some_of_ne m tbl basket.samples hne
    unfold score_basket
    rw [hfs, hc]
    exact ⟨_, rfl⟩

/-- A basket with zero matchable samples raises the `KeyError`. -/
theorem score_basket_error_of_empty (m : ℕ) (tbl : ActTable m)
    (basket : BasketRec) (h : get_samples_fps tbl basket.samples = []) :
    score_basket tbl basket = .error .keyErrorNoFingerprints := by
  have hf : feature_synthetic_fp tbl basket.samples = none := by
    unfold feature_synthetic_fp
    rw [h]
  unfold score_basket
  rw [hf]

/-- C1 counterexample: with an activity table containing only sample `A`, a
run holding one scoreable basket `{A}` and one basket `{Z}` with zero
matchable samples aborts wholesale: `score_baskets` propagates the raised
`KeyError` out of the parallel map, so no basket at all is scored or
emitted — contradicting the claim that only the failing basket is excluded
while every other basket is still scored. -/
theorem claim_C1_counterexample :
    score_baskets [⟨["A"], 0, 0, 0⟩, ⟨["Z"], 0, 0, 0⟩]
        [("A", fun _ : Fin 1 => (1 : ℚ))] =
      .error .keyErrorNoFingerprints ∧
    ∀ l : List Score, score_baskets [⟨["A"], 0, 0, 0⟩, ⟨["Z"], 0, 0, 0⟩]
        [("A", fun _ : Fin 1 => (1 : ℚ))] ≠ .ok l := by
  have h1 : score_baskets [⟨["A"], 0, 0, 0⟩, ⟨["Z"], 0, 0, 0⟩]
      [("A", fun _ : Fin 1 => (1 : ℚ))] = .error .keyErrorNoFingerprints := rfl
  refine ⟨h1, fun l hl => ?_⟩
  rw [h1] at hl
  exact absurd hl (by simp)

/-- C1 (amended): a basket with zero matchable samples in the activity table
causes `score_basket` to raise `KeyError("No Fingerprints found...")`, and
`score_baskets` propagates that exception out of the whole parallel scoring
map: the presence of any such basket aborts the entire scoring run with that
error, rather than excluding only the failing basket. -/
theorem claim_C1_amended {m : ℕ} (tbl : ActTable m) (baskets : List BasketRec)
    (h : ∃ b ∈ baskets, get_samples_fps tbl b.samples = []) :
    score_baskets baskets tbl = .error .keyErrorNoFingerprints := by
  induction baskets with
  | nil =>
    obtain ⟨b, hb, _⟩ := h
    exact absurd hb (List.not_mem_nil b)
  | cons hd tl ih =>
    by_cases hhd : get_samples_fps tbl hd.samples = []
    · have he := score_basket_error_of_empty m tbl hd hhd
      unfold score_baskets
      rw [he]
      rfl
    · obtain ⟨sc, hsc⟩ := score_basket_ok_of_found m tbl hd hhd
      have htl : ∃ b ∈ tl, get_samples_fps tbl b.samples = [] := by
        obtain ⟨b, hb, hbe⟩ := h
        cases List.mem_cons.1 hb with
        | inl heq =>
          subst heq
          exact absurd hbe hhd
        | inr hmem => exact ⟨b, hmem, hbe⟩
      unfold score_baskets
      rw [hsc, ih htl]
      rfl

/-- Witness for the amended C1: a single-basket run whose basket has zero
matchable samples errors out. -/
theorem claim_C1_witness :
    score_baskets [⟨["Z"], 0, 0, 0⟩] [("A", fun _ : Fin 1 => (1 : ℚ))] =
      .error .keyErrorNoFingerprints :=
  claim_C1_amended _ _ ⟨⟨["Z"], 0, 0, 0⟩, by simp, rfl⟩

/-- Restricting a `filterMap` to the entries on which it fires changes
nothing: the found rows are exactly those of the found samples. -/
theorem filterMap_filter_isSome {β : Type} (l : List String)
    (f : String → Option β) :
    (l.filter (fun s => (f s).isSome)).filterMap f = l.filterMap f := by
  induction l with
  | nil => simp
  | cons hd tl ih =>
    cases hfd : f hd with
    | none => simp [List.filter_cons, List.filterMap_cons, hfd, ih]
    | some b => simp [List.filter_cons, List.filterMap_cons, hfd, ih]

/-- C5: for every basket with at least one sample found in the activity
table, scoring succeeds (missing samples are skipped, not errors) and the
activity score is the sum of squares of the element-wise arithmetic mean of
the fingerprint vectors of exactly those of its samples found as rows of the
table. -/
theorem claim_C5_activity_score {m : ℕ} (tbl : ActTable m)
    (basket : BasketRec) (h : ∃ s ∈ basket.samples, (lookupRow tbl s).isSome) :
    (score_basket tbl basket).map (fun sc => sc.activity) =
      .ok (∑ i, (vecMean ((basket.samples.filter
        (fun s => (lookupRow tbl s).isSome)).filterMap (lookupRow tbl)) i)^2) ∧
    (basket.samples.filter (fun s => (lookupRow tbl s).isSome)).filterMap
        (lookupRow tbl) = get_samples_fps tbl basket.samples := by
  have hspec : (basket.samples.filter
      (fun s => (lookupRow tbl s).isSome)).filterMap (lookupRow tbl) =
      get_samples_fps tbl basket.samples :=
    filterMap_filter_isSome basket.samples (lookupRow tbl)
  refine ⟨?_, hspec⟩
  have hne : get_samples_fps tbl basket.samples ≠ [] := by
    intro hemp
    obtain ⟨s, hs, hsome⟩ := h
    have := (List.filterMap_eq_nil.1 hemp) s hs
    rw [this] at hsome
    exact absurd hsome (by simp)
  cases hf : get_samples_fps tbl basket.samples with
  | nil => exact absurd hf hne
  | cons a l =>
    have hfs : feature_synthetic_fp tbl basket.samples = some (vecMean (a :: l)) := by
      unfold feature_synthetic_fp
      rw [hf]
    obtain ⟨c, hc⟩ := cluster_score_some_of_ne m tbl basket.samples hne
    unfold score_basket
    rw [hfs, hc, hspec, hf]
    rfl

/-- Witness for C5: a basket whose sample `Z` is missing from the table still
scores, the mean ranging over the found sample `A` only. -/
theorem claim_C5_witness :
    (score_basket [("A", fun _ : Fin 1 => (1 : ℚ))] ⟨["A", "Z"], 0, 0, 0⟩).map
        (fun sc => sc.activity) =
      .ok (∑ i, (vecMean (((["A", "Z"]).filter
        (fun s => (lookupRow [("A", fun _ : Fin 1 => (1 : ℚ))] s).isSome)).filterMap
          (lookupRow [("A", fun _ : Fin 1 => (1 : ℚ))])) i)^2) ∧
    ((["A", "Z"]).filter
        (fun s => (lookupRow [("A", fun _ : Fin 1 => (1 : ℚ))] s).isSome)).filterMap
          (lookupRow [("A", fun _ : Fin 1 => (1 : ℚ))]) =
      get_samples_fps [("A", fun _ : Fin 1 => (1 : ℚ))] ["A", "Z"] :=
  claim_C5_activity_score [("A", fun _ : Fin 1 => (1 : ℚ))] ⟨["A", "Z"], 0, 0, 0⟩
    ⟨"A", by simp, rfl⟩

/-- Mapping a function of the payload over an enumerated list forgets the
indices. -/
theorem enum_map_snd_comp {α β : Type} (l : List α) (f : α → β) :
    l.enum.map (fun p => f p.2) = l.map f := by
  rw [show (fun p : ℕ × α => f p.2) = f ∘ Prod.snd from rfl, ← List.map_map,
    List.enum_map_snd]

/-- The radii of the basket nodes of the association network, basket by
basket. -/
theorem create_net_radii (baskets : List BasketRec) (scores : List Score)
    (hlen : ¬ scores.length < baskets.length) :
    (create_association_network baskets scores).map
        (fun net => net.basketNodes.map (fun n => n.radius)) =
      some ((baskets.zip scores).map (fun p =>
        basketRadius ((baskets.zip scores).map (fun q => q.2.activity))
          p.2.activity)) := by
  unfold create_association_network
  rw [if_neg hlen]
  simp only [Option.map_some']
  congr 1
  rw [List.map_map]
  exact enum_map_snd_comp (baskets.zip scores)
    (fun q => basketRadius ((baskets.zip scores).map (fun q => q.2.activity))
      q.2.activity)

/-- The colours of the basket nodes of the association network, basket by
basket. -/
theorem create_net_colors (baskets : List BasketRec) (scores : List Score)
    (hlen : ¬ scores.length < baskets.length) :
    (create_association_network baskets scores).map
        (fun net => net.basketNodes.map (fun n => n.color)) =
      some ((baskets.zip scores).map (fun p =>
        colorFor (round2R p.2.cluster))) := by
  unfold create_association_network
  rw [if_neg hlen]
  simp only [Option.map_some']
  congr 1
  rw [List.map_map]
  exact enum_map_snd_comp (baskets.zip scores)
    (fun q => colorFor (round2R q.2.cluster))

/-- Python `round` fixes integers. -/
theorem pyRound_intCast (n : ℤ) : pyRound ((n : ℚ)) = n := by
  simp only [pyRound, Int.floor_intCast]
  rw [sub_self, if_pos (by norm_num)]

/-- Python `round(·, 2)` fixes integers. -/
theorem round2_intCast (n : ℤ) : round2 ((n : ℚ)) = (n : ℚ) := by
  unfold round2
  rw [show (100 : ℚ) * (n : ℚ) = (((100 * n : ℤ)) : ℚ) by push_cast; ring,
    pyRound_intCast]
  push_cast
  ring

/-- C4 counterexample: two baskets sharing the activity score `5`.  The
claimed fallback (denominator treated as `1`, so both radii `round(3) = 3`)
does not happen: the division `0.0/0.0` is a `NaN` (modelled `none`), so
neither node carries a finite radius. -/
theorem claim_C4_counterexample :
    (create_association_network [⟨["A"], 0, 0, 0⟩, ⟨["B"], 0, 0, 0⟩]
        [⟨5, 0⟩, ⟨5, 0⟩]).map
        (fun net => net.basketNodes.map (fun n => n.radius)) =
      some [none, none] ∧
    (create_association_network [⟨["A"], 0, 0, 0⟩, ⟨["B"], 0, 0, 0⟩]
        [⟨5, 0⟩, ⟨5, 0⟩]).map
        (fun net => net.basketNodes.map (fun n => n.radius)) ≠
      some [some 3, some 3] := by
  have h : (create_association_network [⟨["A"], 0, 0, 0⟩, ⟨["B"], 0, 0, 0⟩]
      [⟨5, 0⟩, ⟨5, 0⟩]).map
      (fun net => net.basketNodes.map (fun n => n.radius)) = some [none, none] := by
    rw [create_net_radii _ _ (by decide)]
    simp [List.zip, basketRadius, listMin, listMax]
  refine ⟨h, ?_⟩
  rw [h]
  simp

/-- C4 (amended): every basket node's radius is
`round(3 + 7*(round(activity,2) - min_activity)/(max_activity - min_activity))`
with no clamping; when every basket shares the same activity score the
division by the zero denominator yields no finite radius (`NaN`) instead of
the claimed denominator-1 fallback; when the scores are distinct, a basket
whose activity score is the minimum (resp. maximum) and exact at two
decimals gets radius `3` (resp. `10`). -/
theorem claim_C4_amended (baskets : List BasketRec) (scores : List Score)
    (hlen : ¬ scores.length < baskets.length) :
    ((create_association_network baskets scores).map
        (fun net => net.basketNodes.map (fun n => n.radius)) =
      some ((baskets.zip scores).map (fun p =>
        basketRadius ((baskets.zip scores).map (fun q => q.2.activity))
          p.2.activity))) ∧
    (∀ acts : List ℚ, listMax acts = listMin acts →
      ∀ a : ℚ, basketRadius acts a = none) ∧
    (∀ acts : List ℚ, listMax acts ≠ listMin acts →
      ∀ a : ℚ, round2 a = a → a = listMin acts → basketRadius acts a = some 3) ∧
    (∀ acts : List ℚ, listMax acts ≠ listMin acts →
      ∀ a : ℚ, round2 a = a → a = listMax acts → basketRadius acts a = some 10) := by
  refine ⟨create_net_radii baskets scores hlen, ?_, ?_, ?_⟩
  · intro acts heq a
    unfold basketRadius
    rw [if_pos (by rw [heq, sub_self])]
  · intro acts hne a hr2 hmin
    have hd : listMax acts - listMin acts ≠ 0 := sub_ne_zero.2 hne
    unfold basketRadius
    rw [if_neg hd]
    have hval : (3 : ℚ) + (10 - 3) * (round2 a - listMin acts) /
        (listMax acts - listMin acts) = 3 := by
      rw [hr2, hmin]
      simp
    rw [hval, show (3 : ℚ) = ((3 : ℤ) : ℚ) by norm_num, pyRound_intCast]
  · intro acts hne a hr2 hmax
    have hd : listMax acts - listMin acts ≠ 0 := sub_ne_zero.2 hne
    unfold basketRadius
    rw [if_neg hd]
    have hval : (3 : ℚ) + (10 - 3) * (round2 a - listMin acts) /
        (listMax acts - listMin acts) = 10 := by
      rw [hr2, hmax, mul_div_assoc, div_self hd]
      norm_num
    rw [hval, show (10 : ℚ) = ((10 : ℤ) : ℚ) by norm_num, pyRound_intCast]

/-- Witness for the amended C4: two baskets with distinct two-decimal-exact
activity scores `0` and `1` get radii `3` and `10`. -/
theorem claim_C4_witness :
    ((create_association_network [⟨["A"], 0, 0, 0⟩, ⟨["B"], 0, 0, 0⟩]
        [⟨0, 0⟩, ⟨1, 0⟩]).map
        (fun net => net.basketNodes.map (fun n => n.radius)) =
      some (([(⟨["A"], 0, 0, 0⟩ : BasketRec), ⟨["B"], 0, 0, 0⟩].zip
          [(⟨0, 0⟩ : Score), ⟨1, 0⟩]).map (fun p =>
        basketRadius (([(⟨["A"], 0, 0, 0⟩ : BasketRec), ⟨["B"], 0, 0, 0⟩].zip
            [(⟨0, 0⟩ : Score), ⟨1, 0⟩]).map (fun q => q.2.activity))
          p.2.activity))) ∧
    basketRadius [0, 1] 0 = some 3 ∧
    basketRadius [0, 1] 1 = some 10 := by
  have h := claim_C4_amended [⟨["A"], 0, 0, 0⟩, ⟨["B"], 0, 0, 0⟩]
    [⟨0, 0⟩, ⟨1, 0⟩] (by decide)
  have hmm : listMax [(0 : ℚ), 1] ≠ listMin [(0 : ℚ), 1] := by
    simp [listMax, listMin]
  exact ⟨h.1,
    h.2.2.1 [0, 1] hmm 0 (by exact_mod_cast round2_intCast 0)
      (by simp [listMin]),
    h.2.2.2 [0, 1] hmm 1 (by exact_mod_cast round2_intCast 1)
      (by simp [listMax])⟩

/-- C6: every basket node's colour is selected from its stored
(2-decimal-rounded) cluster score by the first matching band in descending
threshold order `0.75, 0.5, 0.25, 0, -0.25, -0.5, -0.75`; in particular the
eight cluster scores `0.8, 0.6, 0.3, 0.1, -0.1, -0.3, -0.6, -0.9` map to
eight pairwise-distinct colours in that band order. -/
theorem claim_C6_colors :
    (∀ (baskets : List BasketRec) (scores : List Score),
      ¬ scores.length < baskets.length →
      (create_association_network baskets scores).map
          (fun net => net.basketNodes.map (fun n => n.color)) =
        some ((baskets.zip scores).map (fun p =>
          colorFor (round2R p.2.cluster)))) ∧
    ((create_association_network
        [⟨["A"], 0, 0, 0⟩, ⟨["A"], 0, 0, 0⟩, ⟨["A"], 0, 0, 0⟩, ⟨["A"], 0, 0, 0⟩,
         ⟨["A"], 0, 0, 0⟩, ⟨["A"], 0, 0, 0⟩, ⟨["A"], 0, 0, 0⟩, ⟨["A"], 0, 0, 0⟩]
        [⟨0, ((0.8 : ℚ) : ℝ)⟩, ⟨0, ((0.6 : ℚ) : ℝ)⟩, ⟨0, ((0.3 : ℚ) : ℝ)⟩,
         ⟨0, ((0.1 : ℚ) : ℝ)⟩, ⟨0, ((-0.1 : ℚ) : ℝ)⟩, ⟨0, ((-0.3 : ℚ) : ℝ)⟩,
         ⟨0, ((-0.6 : ℚ) : ℝ)⟩, ⟨0, ((-0.9 : ℚ) : ℝ)⟩]).map
        (fun net => net.basketNodes.map (fun n => n.color)) =
      some ["rgb(165,0,38)", "rgb(215,48,39)", "rgb(244,109,67)",
        "rgb(253,174,97)", "rgb(171,217,233)", "rbg(116,173,209)",
        "rgb(69,117,180)", "rgb(49,54,149)"]) ∧
    (["rgb(165,0,38)", "rgb(215,48,39)", "rgb(244,109,67)",
      "rgb(253,174,97)", "rgb(171,217,233)", "rbg(116,173,209)",
      "rgb(69,117,180)", "rgb(49,54,149)"] : List String).Nodup := by
  refine ⟨fun baskets scores hlen => create_net_colors baskets scores hlen,
    ?_, by decide⟩
  rw [create_net_colors _ _ (by decide)]
  simp only [List.zip_cons_cons, List.zip_nil_right, List.map_cons, List.map_nil,
    round2R_ratCast, colorFor_ratCast]
  norm_num [colorForQ, round2, pyRound]

/-- Witness for C6: the general band rule applied to a one-basket network. -/
theorem claim_C6_witness :
    (create_association_network [⟨["A"], 0, 0, 0⟩] [⟨0, 0⟩]).map
        (fun net => net.basketNodes.map (fun n => n.color)) =
      some (([(⟨["A"], 0, 0, 0⟩ : BasketRec)].zip [(⟨0, 0⟩ : Score)]).map
        (fun p => colorFor (round2R p.2.cluster))) :=
  claim_C6_colors.1 [⟨["A"], 0, 0, 0⟩] [⟨0, 0⟩] (by decide)

/-- C9: the tabular output has exactly one row per (successfully scored)
basket, with exactly the source's eight columns in order; `SampleList` is the
JSON serialization of the basket's sample identifiers in sorted order and
`Frequency` is the number of distinct samples in the basket's sample set. -/
theorem claim_C9_output_table (baskets : List BasketRec) (scores : List Score)
    (hlen : scores.length = baskets.length)
    (hnd : ∀ b ∈ baskets, b.samples.Nodup) :
    create_output_table baskets scores =
      some ((baskets.zip scores).enum.map (fun p =>
        { BasketID := p.1
          Frequency := p.2.1.samples.dedup.length
          PrecMz := p.2.1.PrecMz
          PrecIntensity := p.2.1.PrecIntensity
          RetTime := p.2.1.RetTime
          SampleList := jsonList (sortStrings p.2.1.samples)
          ACTIVITY_SCORE := p.2.2.activity
          CLUSTER_SCORE := p.2.2.cluster })) ∧
    (create_output_table baskets scores).map List.length =
      some baskets.length ∧
    outputColumns = ["BasketID", "Frequency", "PrecMz", "PrecIntensity",
      "RetTime", "SampleList", "ACTIVITY_SCORE", "CLUSTER_SCORE"] := by
  have hnotlt : ¬ scores.length < baskets.length := by omega
  have hrows : create_output_table baskets scores =
      some ((baskets.zip scores).enum.map (fun p =>
        { BasketID := p.1
          Frequency := p.2.1.samples.dedup.length
          PrecMz := p.2.1.PrecMz
          PrecIntensity := p.2.1.PrecIntensity
          RetTime := p.2.1.RetTime
          SampleList := jsonList (sortStrings p.2.1.samples)
          ACTIVITY_SCORE := p.2.2.activity
          CLUSTER_SCORE := p.2.2.cluster })) := by
    unfold create_output_table
    rw [if_neg hnotlt]
    congr 1
    apply List.map_congr_left
    rintro ⟨i, b, s⟩ hp
    have hb : b ∈ baskets := by
      have h2 : (b, s) ∈ baskets.zip scores := by
        have h3 := List.mem_map_of_mem Prod.snd hp
        rwa [List.enum_map_snd] at h3
      exact (List.of_mem_zip h2).1
    simp [List.dedup_eq_self.2 (hnd b hb)]
  refine ⟨hrows, ?_, rfl⟩
  rw [hrows]
  simp [List.enum_length, List.length_zip, hlen]

/-- Witness for C9: a one-basket table with an unsorted two-sample basket. -/
theorem claim_C9_witness :
    create_output_table [⟨["B", "A"], 1, 2, 3⟩] [⟨5, 0⟩] =
      some (([(⟨["B", "A"], 1, 2, 3⟩ : BasketRec)].zip
          [(⟨5, 0⟩ : Score)]).enum.map (fun p =>
        { BasketID := p.1
          Frequency := p.2.1.samples.dedup.length
          PrecMz := p.2.1.PrecMz
          PrecIntensity := p.2.1.PrecIntensity
          RetTime := p.2.1.RetTime
          SampleList := jsonList (sortStrings p.2.1.samples)
          ACTIVITY_SCORE := p.2.2.activity
          CLUSTER_SCORE := p.2.2.cluster })) ∧
    (create_output_table [⟨["B", "A"], 1, 2, 3⟩] [⟨5, 0⟩]).map List.length =
      some 1 ∧
    outputColumns = ["BasketID", "Frequency", "PrecMz", "PrecIntensity",
      "RetTime", "SampleList", "ACTIVITY_SCORE", "CLUSTER_SCORE"] :=
  claim_C9_output_table [⟨["B", "A"], 1, 2, 3⟩] [⟨5, 0⟩] rfl (by decide)

/-- Dropped-row count: removing the rows kept by a filter leaves exactly the
rows failing it. -/
theorem length_sub_filter {α : Type} (l : List α) (q : α → Bool) :
    l.length - (l.filter q).length = (l.filter (fun r => !(q r))).length := by
  induction l with
  | nil => rfl
  | cons hd tl ih =>
    have hle := List.length_filter_le q tl
    cases hq : q hd <;>
      simp [List.filter_cons, hq, List.length_cons] <;> omega

/-- The repaired filename cell is present iff the original row had a
filename or a `Sample` value. -/
theorem fill_isSome (FN : String) (r : RepRow) :
    ((fillFilename FN r) FN).isSome = ((r FN).isSome || (r "Sample").isSome) := by
  unfold fillFilename
  rw [if_pos rfl]
  cases hr : r FN <;> simp [hr]

/-- The kept rows of the basketing phase: rows with a filename or `Sample`
value, with the filename column repaired. -/
theorem kept_rows_eq (FN : String) (rows : List RepRow) :
    (rows.map (fillFilename FN)).filter (fun r => (r FN).isSome) =
      (rows.filter (fun r =>
        (r FN).isSome || (r "Sample").isSome)).map (fillFilename FN) := by
  rw [List.filter_map]
  congr 1
  apply List.filter_congr
  intro r _
  rw [Function.comp_apply, fill_isSome]

/-- C7: the basketing phase repairs the filename column from the `Sample`
column, drops (and counts, for the log) the rows still missing it, invokes
the consolidation with `min_reps = 1` whatever the configured `MINREPS` is,
and appends a `freq` column equal to the number of `|`-delimited distinct
source file names of each resulting basket row. -/
theorem claim_C7_basketing (FN : String)
    (collapse : List RepRow → ℕ → List RepRow) (rows : List RepRow)
    (mr mr' : ℕ) :
    (basket_replicated FN mr collapse rows =
      basket_replicated FN mr' collapse rows) ∧
    ((basket_replicated FN mr collapse rows).2 =
      (rows.filter (fun r => (r FN).isNone && (r "Sample").isNone)).length) ∧
    ((basket_replicated FN mr collapse rows).1.map Prod.fst =
      collapse ((rows.filter (fun r =>
        (r FN).isSome || (r "Sample").isSome)).map (fillFilename FN)) 1) ∧
    (∀ pr ∈ (basket_replicated FN mr collapse rows).1, ∀ s : String,
      pr.1 FN = some s → (pySplit '|' s).Nodup →
      pr.2 = some (pySplit '|' s).dedup.length) := by
  refine ⟨rfl, ?_, ?_, ?_⟩
  · simp only [basket_replicated]
    rw [List.length_map, show ((rows.map (fillFilename FN)).filter
        (fun r => (r FN).isSome)).length =
        (rows.filter ((fun r => (r FN).isSome) ∘ fillFilename FN)).length from by
      rw [List.filter_map, List.length_map], length_sub_filter]
    congr 1
    apply List.filter_congr
    intro r _
    rw [Function.comp_apply, fill_isSome]
    cases h1 : r FN <;> cases h2 : r "Sample" <;> simp
  · simp only [basket_replicated, kept_rows_eq]
    rw [List.map_map]
    have hid : (Prod.fst ∘ fun r : RepRow =>
        (r, (r FN).map (fun s => (pySplit '|' s).length))) = id := rfl
    rw [hid, List.map_id]
  · intro pr hpr s hs hnodup
    simp only [basket_replicated] at hpr
    rw [List.mem_map] at hpr
    obtain ⟨r, hr, rfl⟩ := hpr
    have hs' : r FN = some s := hs
    show (r FN).map (fun s => (pySplit '|' s).length) =
      some (pySplit '|' s).dedup.length
    rw [hs', List.dedup_eq_self.2 hnodup]
    rfl

/-- Witness for C7: a two-row table whose second row lacks both the filename
and the `Sample` value; consolidation instantiated with the identity
engine. -/
theorem claim_C7_witness :
    (basket_replicated "fn" 7 (fun rs _ => rs)
        [fun c => if c = "fn" then some "A_1|A_2" else none, fun _ => none] =
      basket_replicated "fn" 1 (fun rs _ => rs)
        [fun c => if c = "fn" then some "A_1|A_2" else none, fun _ => none]) ∧
    ((fillFilename "fn" (fun c => if c = "fn" then some "A_1|A_2" else none),
        some 2) : RepRow × Option ℕ).2 =
      some (pySplit '|' "A_1|A_2").dedup.length := by
  have h := claim_C7_basketing "fn" (fun rs _ => rs)
    [fun c => if c = "fn" then some "A_1|A_2" else none, fun _ => none] 7 1
  refine ⟨h.1, ?_⟩
  refine h.2.2.2 _ ?_ "A_1|A_2" rfl (by decide)
  exact List.Mem.head _

/-- C8 counterexample: with sample `A` failing (unreadable input) and sample
`B` after it in the batch, the orchestrator's fail-fast parallel map leaves
`B` without any consolidated output — contradicting the claim that every
sibling sample still produces its own output. -/
theorem claim_C8_counterexample :
    (process_replicates (fun s => if s = "A"
        then Except.error IOErr.unreadable else Except.ok (0 : ℕ))
      ["A", "B"]).1.map Prod.fst = [] ∧
    ¬ "B" ∈ (process_replicates (fun s => if s = "A"
        then Except.error IOErr.unreadable else Except.ok (0 : ℕ))
      ["A", "B"]).1.map Prod.fst := by
  refine ⟨rfl, ?_⟩
  rw [show (process_replicates (fun s => if s = "A"
      then Except.error IOErr.unreadable else Except.ok (0 : ℕ))
      ["A", "B"]).1.map Prod.fst = [] from rfl]
  simp

/-- C8 (amended): a failure while processing one sample propagates out of
`process_replicates` (joblib's fail-fast exception handling, modelled as a
sequential fold): the samples before the first failing unit produce their
outputs, the error is surfaced for the whole batch, and the remaining
samples — the failing one included — produce no output. -/
theorem claim_C8_amended {α : Type} (proc : String → Except IOErr α)
    (pre : List String) (u : String) (post : List String) (e : IOErr)
    (hpre : ∀ v ∈ pre, ∃ t, proc v = .ok t) (hu : proc u = .error e) :
    (process_replicates proc (pre ++ u :: post)).2 = some e ∧
    (process_replicates proc (pre ++ u :: post)).1.map Prod.fst = pre := by
  induction pre with
  | nil => simp [process_replicates, hu]
  | cons hd tl ih =>
    obtain ⟨t, ht⟩ := hpre hd (List.mem_cons_self hd tl)
    have ihh := ih (fun v hv => hpre v (List.mem_cons_of_mem hd hv))
    simp only [List.cons_append, process_replicates, ht, List.append_eq]
    exact ⟨ihh.1, by simp [ihh.2]⟩

/-- Witness for the amended C8: sample `P` succeeds, then `A` fails, and the
pending `B` is never processed. -/
theorem claim_C8_witness :
    (process_replicates (fun s => if s = "A"
        then Except.error IOErr.unreadable else Except.ok (0 : ℕ))
      (["P"] ++ "A" :: ["B"])).2 = some IOErr.unreadable ∧
    (process_replicates (fun s => if s = "A"
        then Except.error IOErr.unreadable else Except.ok (0 : ℕ))
      (["P"] ++ "A" :: ["B"])).1.map Prod.fst = ["P"] :=
  claim_C8_amended _ ["P"] "A" ["B"] IOErr.unreadable
    (by
      intro v hv
      rw [List.mem_singleton] at hv
      subst hv
      exact ⟨0, rfl⟩)
    rfl

/-- C10: `filenames2samples` maps each `|`-delimited entry through the
`_<digit>` suffix rule (an entry ending in `_<single digit>` contributes the
prefix before its first underscore, any other entry contributes itself) and
collapses duplicates into a set, so the derived sample count can be strictly
smaller than the number of contributing files — the tabular `Frequency`
(distinct samples) can differ from the basketed `freq` column (file count). -/
theorem claim_C10_filenames2samples :
    (∀ (fns : String) (x : String),
      x ∈ filenames2samples fns ↔ x ∈ (pySplit '|' fns).map sampleOf) ∧
    (∀ fns : String, (filenames2samples fns).Nodup) ∧
    (sampleOf "A_1" = "A" ∧ sampleOf "STRAIN-7_B_2" = "STRAIN-7" ∧
      sampleOf "ABC" = "ABC" ∧ sampleOf "A_12" = "A_12") ∧
    ((filenames2samples "A_1|A_2").length = 1 ∧
      (pySplit '|' "A_1|A_2").length = 2) := by
  refine ⟨?_, ?_, ⟨rfl, rfl, rfl, rfl⟩, by decide, by decide⟩
  · intro fns x
    unfold filenames2samples
    rw [foldl_addSample_mem]
    simp
  · intro fns
    exact foldl_addSample_nodup _ _ List.nodup_nil
